import Mathlib

/-!
Verification of `tao::pool` (src/pool.hpp), a header-only object pool.

Shallow embedding conventions:

* The pooled resource type `T` is a type parameter; items are plain values.
* The pool's storage `items_` (`std::list<std::shared_ptr<T>>`) is a Lean
  list whose HEAD is the C++ BACK of the list, i.e. the most recently
  pushed entry comes first.  `push_back` therefore becomes `cons` and
  `pop_back` becomes taking the head.  Relative order of the remaining
  entries is unchanged by this representation choice.
* A `std::shared_ptr<T>` produced by the pool carries a custom `deleter`
  holding a `std::weak_ptr<pool>`.  We model the handle as the item value
  together with `del : Option (Option Unit)`:
  - `del = none` — the shared pointer does NOT carry the pool's `deleter`
    type at all (`std::get_deleter<deleter>` returns `nullptr`);
  - `del = some none` — the `deleter` is present and its weak pointer is
    empty (default-constructed `deleter()`);
  - `del = some (some ())` — the `deleter` is present and its weak pointer
    targets the (single, modelled) pool.
  Whether that pool is still alive is a separate flag `alive`;
  `weak_ptr::lock()` succeeds exactly when the association is set AND the
  pool is alive.
* Each storage entry keeps the association its shared pointer carries, so
  the claim that stored entries are always unassociated is provable rather
  than built in: an entry is `T × Option Unit`.
* C++ exceptions become an `Except Err` result; `Err.factory` is whatever
  the factory hook `v_create` throws, `Err.badWeak` is the
  `std::bad_weak_ptr` thrown by `shared_from_this` on a pool that is not
  owned by a `std::shared_ptr`.
* The virtual hooks are parameters: `valid : T → Bool` is `v_is_valid`
  (total and non-throwing, as the code requires) and the factory
  `v_create` is an `Option T` per call site — `some t` for a successful
  construction of `t`, `none` when the factory throws.
-/

namespace tao

/-- The C++ exception escaping a pool operation: a factory-hook failure
thrown by `v_create`, or `std::bad_weak_ptr` thrown by
`shared_from_this` when the pool is not owned through a `shared_ptr`. -/
inductive Err where
  | factory
  | badWeak
deriving DecidableEq, Repr

/-- A `std::shared_ptr<T>` as the pool sees it: the item it owns, plus the
state of the pool's custom `deleter` on it (see the conventions above):
`none` = no such deleter, `some a` = deleter present with weak pool
pointer `a`. -/
structure Handle (T : Type) where
  item : T
  del : Option (Option Unit)
deriving DecidableEq, Repr

/-- Does `pool_.lock()` inside the deleter succeed?  The weak pointer must
be set and the pool must still be alive. -/
def lockOk (assoc : Option Unit) (alive : Bool) : Bool :=
  assoc.isSome && alive

/-- Embedding of `pool::push` (src/pool.hpp lines 64-72): called from the deleter with
unique ownership of the item.  If `v_is_valid` accepts the item it is
rewrapped with a default-constructed `deleter()` (empty weak pointer) and
`push_back`ed into `items_`; otherwise the `unique_ptr` destroys it.
Returns the new storage and the list of items destroyed. -/
def push {T : Type} (valid : T → Bool) (items_ : List (T × Option Unit))
    (item : T) : List (T × Option Unit) × List T :=
  if valid item then ((item, none) :: items_, []) else (items_, [item])

/-- Embedding of `pool::deleter::operator()` (src/pool.hpp lines 52-59): the release
protocol run when the last strong reference to a handle drops.  The raw
item is taken into a local `unique_ptr`; then `pool_.lock()` is attempted
and only on success is `push` called — otherwise the `unique_ptr`
destroys the item.  Returns the pool storage after the release, the items
destroyed, and whether the validity hook `v_is_valid` was invoked (it is
invoked exactly by `push`). -/
def deleterRun {T : Type} (valid : T → Bool) (alive : Bool)
    (assoc : Option Unit) (items_ : List (T × Option Unit)) (item : T) :
    List (T × Option Unit) × List T × Bool :=
  if lockOk assoc alive then
    let r := push valid items_ item
    (r.1, r.2, true)
  else
    (items_, [item], false)

/-- Embedding of `pool::pull` (src/pool.hpp lines 76-85): pop the back of `items_`
(the head in our representation) if nonempty, else return an empty
shared pointer. -/
def pull {T : Type} (items_ : List (T × Option Unit)) :
    Option (T × Option Unit) × List (T × Option Unit) :=
  match items_ with
  | [] => (none, [])
  | e :: rest => (some e, rest)

/-- Embedding of `pool::attach` (src/pool.hpp lines 95-100): `std::get_deleter` is
asserted to be non-null, then the deleter's weak pool pointer is set to
the given pool.  `none` models the assertion firing (the handle does not
carry the pool's `deleter` type). -/
def attach {T : Type} (h : Handle T) : Option (Handle T) :=
  match h.del with
  | none => none
  | some _ => some { h with del := some (some ()) }

/-- Embedding of `pool::detach` (src/pool.hpp lines 104-109): `std::get_deleter` is
asserted to be non-null, then the deleter's weak pool pointer is reset to
empty.  `none` models the assertion firing. -/
def detach {T : Type} (h : Handle T) : Option (Handle T) :=
  match h.del with
  | none => none
  | some _ => some { h with del := some none }

/-- Embedding of `pool::create` (src/pool.hpp lines 112-115), acting on a given
storage to make its non-interference with storage provable.  The braced
initializer evaluates `v_create().release()` first and
`deleter(shared_from_this())` second, so a factory failure propagates
before `shared_from_this` can throw, and if `shared_from_this` throws the
already-released raw pointer leaks (third component).  Storage is never
touched.  `vcreate` is the factory outcome, `sharedOwned` whether the
pool is owned through a `shared_ptr`. -/
def createOp {T : Type} (vcreate : Option T) (sharedOwned : Bool)
    (items_ : List (T × Option Unit)) :
    Except Err (Handle T) × List (T × Option Unit) × List T :=
  match vcreate with
  | none => (.error .factory, items_, [])
  | some t =>
    if sharedOwned then (.ok ⟨t, some (some ())⟩, items_, [])
    else (.error .badWeak, items_, [t])

/-- Outcome of `pool::get` on a given storage: the returned handle or the
escaped exception, the storage left behind, the items destroyed, the
items leaked, and how many times the factory hook was invoked. -/
structure GetResult (T : Type) where
  result : Except Err (Handle T)
  items_ : List (T × Option Unit)
  destroyed : List T
  leaked : List T
  factoryCalls : Nat
deriving Repr

/-- Embedding of `pool::get` (src/pool.hpp lines 119-128): `while (const auto sp =
pull())` — pop the most recent entry; if `v_is_valid` accepts it,
`attach(sp, shared_from_this())` binds it to this pool (the pulled entry
carries the pool's `deleter`, so attach's assertion passes; if
`shared_from_this` throws, `sp` is destroyed by its stored deleter with
the pool alive) and it is returned; if the hook rejects it, `sp` is
destroyed at the end of the loop iteration by its stored deleter — an
empty association destroys the item outright, and a set association
re-enters `push`, whose re-validation of the same item fails again and
destroys it, so the rejected item is destroyed either way.  When the
storage is exhausted, fall back to `create()`. -/
def get {T : Type} (valid : T → Bool) (vcreate : Option T)
    (sharedOwned : Bool) : List (T × Option Unit) → GetResult T
  | [] =>
    match vcreate with
    | none => ⟨.error .factory, [], [], [], 1⟩
    | some t =>
      if sharedOwned then ⟨.ok ⟨t, some (some ())⟩, [], [], [], 1⟩
      else ⟨.error .badWeak, [], [], [t], 1⟩
  | (t, a) :: rest =>
    if valid t then
      if sharedOwned then ⟨.ok ⟨t, some (some ())⟩, rest, [], [], 0⟩
      else
        let r := deleterRun valid true a rest t
        ⟨.error .badWeak, r.1, r.2.1, [], 0⟩
    else
      let r := get valid vcreate sharedOwned rest
      ⟨r.result, r.items_, t :: r.destroyed, r.leaked, r.factoryCalls⟩

/-- Embedding of `pool::erase_invalid` (src/pool.hpp lines 133-152): one pass over
`items_`, keeping entries `v_is_valid` accepts in their relative order
and moving rejected entries into the `deferred_delete` list, which is
destroyed after the lock is released.  Returns (kept storage, deferred
list). -/
def erase_invalid {T : Type} (valid : T → Bool) :
    List (T × Option Unit) → List (T × Option Unit) × List (T × Option Unit)
  | [] => ([], [])
  | e :: rest =>
    let r := erase_invalid valid rest
    if valid e.1 then (e :: r.1, r.2) else (r.1, e :: r.2)

/-- Counts a returned handle: 1 for a successful result, 0 for an escaped
exception.  Measurement apparatus for the conservation statement. -/
def okCount {T : Type} : Except Err (Handle T) → Nat
  | .ok _ => 1
  | .error _ => 0

/-- One client operation on a live pool owned through a `shared_ptr`:
`create`, `get`, release of the `i`-th currently checked-out handle
(its last strong reference drops, running the deleter), or an
`erase_invalid` sweep. -/
inductive Op where
  | create
  | get
  | release (i : Nat)
  | erase
deriving DecidableEq, Repr

/-- Whole-system state for a run of client operations: the pool's storage,
the handles currently checked out, and the lifetime counters the
conservation claim talks about.  Items are `Nat` values produced by the
factory. -/
structure Sys where
  items_ : List (Nat × Option Unit)
  checkedOut : List (Handle Nat)
  constructed : Nat
  destroyedCount : Nat
deriving Repr

/-- A fresh pool: empty storage, nothing checked out, no item ever
constructed or destroyed. -/
def initSys : Sys := ⟨[], [], 0, 0⟩

/-- Small-step semantics of one client operation against the embedded
pool code.  `factory k` is the outcome of the factory hook when `k` items
have been constructed so far (`none` = the factory throws).  The pool is
alive and shared-owned throughout a run; a successful construction
increments `constructed`, every item whose destructor runs increments
`destroyedCount`. -/
def step (valid : Nat → Bool) (factory : Nat → Option Nat) (st : Sys) :
    Op → Sys
  | .create =>
    match createOp (factory st.constructed) true st.items_ with
    | (.ok h, s, _) =>
      { items_ := s, checkedOut := h :: st.checkedOut,
        constructed := st.constructed + 1,
        destroyedCount := st.destroyedCount }
    | (.error _, s, _) => { st with items_ := s }
  | .get =>
    let vc := factory st.constructed
    let r := get valid vc true st.items_
    { items_ := r.items_,
      checkedOut :=
        match r.result with
        | .ok h => h :: st.checkedOut
        | .error _ => st.checkedOut,
      constructed :=
        st.constructed + (if r.factoryCalls = 1 ∧ vc.isSome then 1 else 0),
      destroyedCount := st.destroyedCount + r.destroyed.length }
  | .release i =>
    match st.checkedOut[i]? with
    | none => st
    | some h =>
      let r := deleterRun valid true h.del.join st.items_ h.item
      { items_ := r.1,
        checkedOut := st.checkedOut.eraseIdx i,
        constructed := st.constructed,
        destroyedCount := st.destroyedCount + r.2.1.length }
  | .erase =>
    let r := erase_invalid valid st.items_
    { st with items_ := r.1,
              destroyedCount := st.destroyedCount + r.2.length }

/-- Run a sequence of client operations from the fresh pool. -/
def run (valid : Nat → Bool) (factory : Nat → Option Nat)
    (ops : List Op) : Sys :=
  ops.foldl (step valid factory) initSys

/-- When the drop-while scan exhausts the storage — every entry fails the
validity hook — `get` destroys every entry (in pop order) and falls back
to the create path on the now-empty storage; the factory is invoked
exactly once, and a leak happens only in `create`'s unowned-pool case. -/
theorem get_exhausted {T : Type} (valid : T → Bool) (vcreate : Option T)
    (so : Bool) (s : List (T × Option Unit))
    (h : s.dropWhile (fun e => !valid e.1) = []) :
    get valid vcreate so s =
      ⟨(createOp vcreate so ([] : List (T × Option Unit))).1, [],
        s.map Prod.fst,
        (createOp vcreate so ([] : List (T × Option Unit))).2.2, 1⟩ := by
  induction s with
  | nil =>
    cases vcreate with
    | none => simp [get, createOp]
    | some t => cases so <;> simp [get, createOp]
  | cons e rest ih =>
    obtain ⟨t, a⟩ := e
    rw [List.dropWhile_cons] at h
    cases hv : valid t with
    | true => simp [hv] at h
    | false =>
      simp only [hv, Bool.not_false, if_pos] at h
      simp [get, hv, ih h]

/-- When the drop-while scan finds an accepting entry `e` (with `tl`
behind it), `get` on a shared-owned pool destroys exactly the rejected
front segment, returns `e`'s item as a handle bound to this pool, leaves
`tl` as the new storage, and never invokes the factory. -/
theorem get_found {T : Type} (valid : T → Bool) (vcreate : Option T)
    (s : List (T × Option Unit)) (e : T × Option Unit)
    (tl : List (T × Option Unit))
    (h : s.dropWhile (fun x => !valid x.1) = e :: tl) :
    get valid vcreate true s =
      ⟨.ok ⟨e.1, some (some ())⟩, tl,
        (s.takeWhile (fun x => !valid x.1)).map Prod.fst, [], 0⟩ := by
  induction s with
  | nil => simp at h
  | cons f rest ih =>
    obtain ⟨t, a⟩ := f
    rw [List.dropWhile_cons] at h
    cases hv : valid t with
    | true =>
      simp only [hv, Bool.not_true, if_neg, Bool.false_eq_true,
        not_false_iff] at h
      obtain ⟨he, ht⟩ := List.cons.inj h
      subst ht
      rw [← he]
      simp [get, hv, List.takeWhile_cons]
    | false =>
      simp only [hv, Bool.not_false, if_pos] at h
      simp [get, hv, ih h, List.takeWhile_cons]

/-- When the drop-while scan finds an accepting entry on a pool that is
NOT shared-owned, `shared_from_this` throws inside the bind: the rejected
front segment and the found entry itself (here assumed unassociated, as
stored entries always are) are all destroyed, and the scan's remainder is
what is left of the storage. -/
theorem get_found_unowned {T : Type} (valid : T → Bool) (vcreate : Option T)
    (s : List (T × Option Unit)) (t : T) (tl : List (T × Option Unit))
    (h : s.dropWhile (fun x => !valid x.1) = (t, none) :: tl) :
    get valid vcreate false s =
      ⟨.error .badWeak, tl,
        (s.takeWhile (fun x => !valid x.1)).map Prod.fst ++ [t], [], 0⟩ := by
  induction s with
  | nil => simp at h
  | cons f rest ih =>
    obtain ⟨u, a⟩ := f
    rw [List.dropWhile_cons] at h
    cases hv : valid u with
    | true =>
      simp only [hv, Bool.not_true, if_neg, Bool.false_eq_true,
        not_false_iff] at h
      obtain ⟨he, ht⟩ := List.cons.inj h
      obtain ⟨hu, ha⟩ := Prod.mk.inj he
      subst ht hu ha
      simp [get, hv, List.takeWhile_cons, deleterRun, lockOk]
    | false =>
      simp only [hv, Bool.not_false, if_pos] at h
      simp [get, hv, ih h, List.takeWhile_cons]

/-- When `pool_.lock()` fails, the deleter destroys the item and touches
neither the storage nor the validity hook. -/
theorem deleterRun_dead {T : Type} (valid : T → Bool) (alive : Bool)
    (assoc : Option Unit) (s : List (T × Option Unit)) (t : T)
    (h : lockOk assoc alive = false) :
    deleterRun valid alive assoc s t = (s, [t], false) := by
  simp [deleterRun, h]

/-- When `pool_.lock()` succeeds, the deleter defers to `push`. -/
theorem deleterRun_live {T : Type} (valid : T → Bool) (alive : Bool)
    (assoc : Option Unit) (s : List (T × Option Unit)) (t : T)
    (h : lockOk assoc alive = true) :
    deleterRun valid alive assoc s t =
      ((push valid s t).1, (push valid s t).2, true) := by
  simp [deleterRun, h]

/-- The kept part of a sweep is the filter of the storage by the validity
hook — passing entries survive in their relative order. -/
theorem erase_invalid_keep {T : Type} (valid : T → Bool)
    (s : List (T × Option Unit)) :
    (erase_invalid valid s).1 = s.filter (fun e => valid e.1) := by
  induction s with
  | nil => rfl
  | cons e rest ih =>
    by_cases h : valid e.1 <;> simp [erase_invalid, List.filter, h, ih]

/-- The deferred-delete part of a sweep is the filter of the storage by
the negated validity hook. -/
theorem erase_invalid_del {T : Type} (valid : T → Bool)
    (s : List (T × Option Unit)) :
    (erase_invalid valid s).2 = s.filter (fun e => !valid e.1) := by
  induction s with
  | nil => rfl
  | cons e rest ih =>
    by_cases h : valid e.1 <;> simp [erase_invalid, List.filter, h, ih]

/-- C1 counterexample: with the pool already destroyed (`alive = false`)
but the association still set, releasing an item runs no validity hook at
all — the third component of `deleterRun`, which records whether
`v_is_valid` was invoked, is `false`.  This refutes the claim that the
validity hook is invoked on every release regardless of whether the pool
is still alive (and with it the claimed hook-before-association order). -/
theorem C1_hook_skipped_when_pool_gone :
    (deleterRun (fun _ : Nat => true) false (some ()) [] 0).2.2 = false := by
  rfl

/-- C1 (amended): when the last strong reference drops, the weak pool
association is resolved FIRST.  If the lock fails (association empty or
pool destroyed) the item is destroyed and the validity hook is never
invoked.  Only if the lock succeeds is the validity hook run, by `push`:
a rejected item is destroyed, an accepted one is pushed onto the front of
storage rewrapped with an empty association. -/
theorem C1_release_protocol (valid : Nat → Bool) (alive : Bool)
    (assoc : Option Unit) (s : List (Nat × Option Unit)) (t : Nat) :
    (lockOk assoc alive = false →
      deleterRun valid alive assoc s t = (s, [t], false)) ∧
    (lockOk assoc alive = true →
      (deleterRun valid alive assoc s t).2.2 = true ∧
      (valid t = false → deleterRun valid alive assoc s t = (s, [t], true)) ∧
      (valid t = true →
        deleterRun valid alive assoc s t = ((t, none) :: s, [], true))) := by
  refine ⟨fun h => deleterRun_dead valid alive assoc s t h, fun h => ?_⟩
  refine ⟨by simp [deleterRun_live valid alive assoc s t h], ?_, ?_⟩ <;>
    intro hv <;> simp [deleterRun_live valid alive assoc s t h, push, hv]

/-- C1 amended-claim witness: live pool, set association, accepting hook —
the item is pushed and the hook was invoked. -/
theorem C1_release_protocol_witness :
    deleterRun (fun _ : Nat => true) true (some ()) [] 5 =
      ([(5, none)], [], true) :=
  ((C1_release_protocol (fun _ => true) true (some ()) [] 5).2 rfl).2.2 rfl

/-- C4 counterexample: a handle created without the pool's factory (an
ordinary externally-created shared reference) does not carry the pool's
`deleter`, so `std::get_deleter` returns null and `assert( d )` in
`attach` fires — modelled by `attach` returning `none`.  This refutes the
claim that the assertion never fires for such handles. -/
theorem C4_assert_fires_on_foreign_handle :
    attach (⟨0, none⟩ : Handle Nat) = none := by
  rfl

/-- C4 (amended): `attach` rebinds any handle that carries the pool's
`deleter` type, whatever its current association (freshly created,
detached, or empty) and regardless of which pool built the item; but a
handle without the deleter — which is the case for every shared reference
created outside `create`/`get`, since the deleter type is private — makes
the internal assertion fire. -/
theorem C4_attach_requires_pool_deleter (t : Nat) (a : Option Unit) :
    attach (⟨t, some a⟩ : Handle Nat) = some ⟨t, some (some ())⟩ ∧
    attach (⟨t, none⟩ : Handle Nat) = none :=
  ⟨rfl, rfl⟩

/-- C6: `erase_invalid` keeps exactly the entries the validity hook
accepts, in their original relative order, removes exactly the entries it
rejects (into the deferred-delete list), and is idempotent: with the
hook's verdicts unchanged — automatic here, the hook being a pure
function — a second sweep removes nothing. -/
theorem C6_erase_invalid_exact (valid : Nat → Bool)
    (s : List (Nat × Option Unit)) :
    (erase_invalid valid s).1 = s.filter (fun e => valid e.1) ∧
    (erase_invalid valid s).2 = s.filter (fun e => !valid e.1) ∧
    erase_invalid valid (erase_invalid valid s).1 =
      ((erase_invalid valid s).1, []) := by
  refine ⟨erase_invalid_keep valid s, erase_invalid_del valid s, ?_⟩
  have h1 := erase_invalid_keep valid ((erase_invalid valid s).1)
  have h2 := erase_invalid_del valid ((erase_invalid valid s).1)
  have hk := erase_invalid_keep valid s
  refine Prod.ext ?_ ?_
  · rw [h1, hk, List.filter_filter]
    simp
  · rw [h2, hk]
    simp [List.filter_eq_nil_iff, List.mem_filter]

/-- C7: a release whose `pool_.lock()` cannot succeed — the association
is empty (e.g. after `detach`) or the pool has been destroyed — destroys
the item directly, leaves any storage untouched, never runs the validity
hook, and never returns the item anywhere; moreover `detach` on any
handle carrying the deleter empties its association, after which release
always takes exactly this destroy path. -/
theorem C7_pool_gone_release (valid : Nat → Bool) (alive : Bool)
    (assoc : Option Unit) (s : List (Nat × Option Unit)) (t : Nat)
    (h : assoc = none ∨ alive = false) :
    deleterRun valid alive assoc s t = (s, [t], false) ∧
    (∀ a : Option Unit,
      detach (⟨t, some a⟩ : Handle Nat) = some ⟨t, some none⟩) ∧
    deleterRun valid true none s t = (s, [t], false) := by
  have hlock : lockOk assoc alive = false := by
    rcases h with h | h <;> simp [lockOk, h]
  exact ⟨deleterRun_dead valid alive assoc s t hlock,
    fun a => rfl,
    deleterRun_dead valid true none s t (by simp [lockOk])⟩

/-- C7 witness: pool destroyed, association still set — the item is
destroyed, storage untouched, hook not invoked. -/
theorem C7_pool_gone_release_witness :
    deleterRun (fun _ : Nat => true) false (some ()) [] 9 =
      ([], [9], false) :=
  (C7_pool_gone_release (fun _ => true) false (some ()) [] 9 (Or.inr rfl)).1

/-- C2: on any storage, `get` pops most-recent-first, one pop per
iteration; the destroyed items are exactly the maximal front segment of
rejected entries (never reinserted); if an accepting entry exists, the
first one is returned as a handle bound to this pool with the entries
behind it as the new storage and zero factory invocations; if the storage
is exhausted, the factory is invoked exactly once and its outcome —
a handle bound to this pool, or the propagated failure — is returned. -/
theorem C2_get_search (valid : Nat → Bool) (vcreate : Option Nat)
    (s : List (Nat × Option Unit)) :
    (get valid vcreate true s).destroyed =
      (s.takeWhile (fun e => !valid e.1)).map Prod.fst ∧
    (s.dropWhile (fun e => !valid e.1) = [] →
      (get valid vcreate true s).items_ = [] ∧
      (get valid vcreate true s).factoryCalls = 1 ∧
      (vcreate = none →
        (get valid vcreate true s).result = .error .factory) ∧
      (∀ t, vcreate = some t →
        (get valid vcreate true s).result = .ok ⟨t, some (some ())⟩)) ∧
    (∀ e tl, s.dropWhile (fun e => !valid e.1) = e :: tl →
      (get valid vcreate true s).result = .ok ⟨e.1, some (some ())⟩ ∧
      (get valid vcreate true s).items_ = tl ∧
      (get valid vcreate true s).factoryCalls = 0) := by
  cases hd : s.dropWhile (fun e => !valid e.1) with
  | nil =>
    have hg := get_exhausted valid vcreate true s hd
    have htw : s.takeWhile (fun e => !valid e.1) = s := by
      have hh := List.takeWhile_append_dropWhile (fun e => !valid e.1) s
      rw [hd, List.append_nil] at hh
      exact hh
    refine ⟨by rw [hg, htw], fun _ => ⟨by rw [hg], by rw [hg], ?_, ?_⟩,
      fun e tl he => absurd he (by simp)⟩
    · intro hv; subst hv; rw [hg]; rfl
    · intro t hv; subst hv; rw [hg]; rfl
  | cons e tl =>
    have hg := get_found valid vcreate s e tl hd
    refine ⟨by rw [hg], fun hh => absurd hh (by simp), fun f tl2 hf => ?_⟩
    obtain ⟨he, ht⟩ := List.cons.inj hf
    subst he ht
    exact ⟨by rw [hg], by rw [hg], by rw [hg]⟩

/-- C2 witness: a rejected entry 0 in front of an accepted entry 1 — the
handle returned holds item 1, bound to this pool, with no factory call. -/
theorem C2_get_search_witness :
    (get (fun n : Nat => decide (n = 1)) (some 7) true
        [(0, none), (1, none)]).result = .ok ⟨1, some (some ())⟩ ∧
    (get (fun n : Nat => decide (n = 1)) (some 7) true
        [(0, none), (1, none)]).factoryCalls = 0 :=
  have h := (C2_get_search (fun n => decide (n = 1)) (some 7)
      [(0, none), (1, none)]).2.2 (1, none) [] (by rfl)
  ⟨h.1, h.2.2⟩

/-- C3: LIFO reuse.  Releasing items A then B into an otherwise-empty
pool (both accepted by the hook) yields storage B-then-A; the next `get`
returns B and the one after returns A, neither invoking the factory and
each leaving the remaining storage intact; generally, `get` serves the
most recent accepted entry, with order changed only by discarding the
rejected entries in front of it. -/
theorem C3_lifo_reuse (valid : Nat → Bool) (vcreate : Option Nat)
    (A B : Nat) (hA : valid A = true) (hB : valid B = true) :
    (deleterRun valid true (some ()) [] A).1 = [(A, none)] ∧
    (deleterRun valid true (some ()) [(A, none)] B).1 =
      [(B, none), (A, none)] ∧
    (get valid vcreate true [(B, none), (A, none)]).result =
      .ok ⟨B, some (some ())⟩ ∧
    (get valid vcreate true [(B, none), (A, none)]).factoryCalls = 0 ∧
    (get valid vcreate true [(B, none), (A, none)]).items_ = [(A, none)] ∧
    (get valid vcreate true [(A, none)]).result = .ok ⟨A, some (some ())⟩ ∧
    (get valid vcreate true [(A, none)]).factoryCalls = 0 ∧
    (get valid vcreate true [(A, none)]).items_ = [] ∧
    (∀ (s : List (Nat × Option Unit)) e tl,
      s.dropWhile (fun x => !valid x.1) = e :: tl →
      (get valid vcreate true s).result = .ok ⟨e.1, some (some ())⟩ ∧
      (get valid vcreate true s).items_ = tl ∧
      (get valid vcreate true s).factoryCalls = 0) := by
  refine ⟨by simp [deleterRun, lockOk, push, hA],
    by simp [deleterRun, lockOk, push, hB],
    by simp [get, hB], by simp [get, hB], by simp [get, hB],
    by simp [get, hA], by simp [get, hA], by simp [get, hA],
    fun s e tl h => ?_⟩
  have hg := get_found valid vcreate s e tl h
  exact ⟨by rw [hg], by rw [hg], by rw [hg]⟩

/-- C3 witness: A = 1 then B = 2 released into the empty pool; the next
`get` returns 2 without a factory call. -/
theorem C3_lifo_reuse_witness :
    (get (fun _ : Nat => true) none true [(2, none), (1, none)]).result =
        .ok ⟨2, some (some ())⟩ ∧
    (get (fun _ : Nat => true) none true [(2, none), (1, none)]).factoryCalls
        = 0 :=
  have h := C3_lifo_reuse (fun _ => true) none 1 2 rfl rfl
  ⟨h.2.2.1, h.2.2.2.1⟩

/-- C5 counterexample: storage holds one entry the hook rejects and the
factory throws.  `get` propagates the factory failure, but the storage is
NOT exactly as it was before the call: the rejected entry was popped and
destroyed (an Item was removed).  This refutes the claimed "Storage is
exactly as it was before the call — no Item is added, removed". -/
theorem C5_storage_shrinks_before_failed_fallback :
    (get (fun _ : Nat => false) none true [(0, none)]).result =
        .error .factory ∧
    (get (fun _ : Nat => false) none true [(0, none)]).items_ = [] ∧
    (get (fun _ : Nat => false) none true [(0, none)]).destroyed = [0] :=
  ⟨rfl, rfl, rfl⟩

/-- C5 (amended): a factory failure propagates synchronously and
unchanged as `Err.factory`; `create` leaves the storage exactly as it was
on success and on failure alike (it never touches storage); for `get`,
when the scan exhausts the storage and the factory then fails, the failed
fallback itself adds, removes and half-registers nothing — the storage
equals its state at the moment of the fallback (empty), the factory was
invoked exactly once, and the only destructions are the rejected entries
`get` had already discarded before falling back. -/
theorem C5_factory_failure_atomic (valid : Nat → Bool)
    (vcreate : Option Nat) (so : Bool) (s : List (Nat × Option Unit))
    (hall : s.dropWhile (fun e => !valid e.1) = []) :
    (createOp vcreate so s).2.1 = s ∧
    (get valid none true s).result = .error .factory ∧
    (get valid none true s).items_ = [] ∧
    (get valid none true s).destroyed = s.map Prod.fst ∧
    (get valid none true s).leaked = [] ∧
    (get valid none true s).factoryCalls = 1 := by
  have hg := get_exhausted valid (none : Option Nat) true s hall
  refine ⟨?_, by rw [hg]; rfl, by rw [hg], by rw [hg], by rw [hg]; rfl,
    by rw [hg]⟩
  cases vcreate with
  | none => rfl
  | some t => cases so <;> rfl

/-- C5 amended-claim witness: one rejected entry, failing factory — the
failure escapes as `Err.factory`, with exactly the pre-fallback discard
destroyed and nothing leaked. -/
theorem C5_factory_failure_atomic_witness :
    (createOp (some 3) true [((0 : Nat), (none : Option Unit))]).2.1 =
        [(0, none)] ∧
    (get (fun _ : Nat => false) none true [(0, none)]).result =
        .error .factory :=
  have h := C5_factory_failure_atomic (fun _ => false) (some 3) true
      [(0, none)] (by rfl)
  ⟨h.1, h.2.1⟩

/-- C10 counterexample: a pool not owned through a `shared_ptr`, with one
accepting entry in storage.  `get` does throw `std::bad_weak_ptr`
(`Err.badWeak`), but storage is NOT left unchanged: the entry was popped,
and during unwinding the local shared pointer destroyed the item.  This
refutes the claimed "Storage is left unchanged". -/
theorem C10_get_unowned_mutates_storage :
    (get (fun _ : Nat => true) none false [(5, none)]).result =
        .error .badWeak ∧
    (get (fun _ : Nat => true) none false [(5, none)]).items_ = [] ∧
    (get (fun _ : Nat => true) none false [(5, none)]).destroyed = [5] :=
  ⟨rfl, rfl, rfl⟩

/-- C10 (amended): `create` and (on the paths that bind or construct)
`get` require the pool to be shared-owned and throw `std::bad_weak_ptr`
otherwise — except that a factory failure in `create` propagates first,
since `v_create()` is evaluated before `shared_from_this()`.  `create`
leaves the storage unchanged in every case (on the unowned pool the
already-released raw item leaks).  `get` on an unowned pool, however,
does NOT leave the storage unchanged: it has already popped and destroyed
the rejected front entries, the accepting entry it fails to bind is
destroyed during unwinding, and what remains of the storage is the scan's
remainder; when the scan exhausts the storage the factory runs once
before `bad_weak_ptr` escapes. -/
theorem C10_shared_ownership_required (valid : Nat → Bool)
    (vcreate : Option Nat) (s : List (Nat × Option Unit)) (u : Nat) :
    createOp (some u) false s = (.error .badWeak, s, [u]) ∧
    createOp (none : Option Nat) false s = (.error .factory, s, []) ∧
    (s.dropWhile (fun e => !valid e.1) = [] →
      (get valid (some u) false s).result = .error .badWeak ∧
      (get valid (some u) false s).items_ = [] ∧
      (get valid (some u) false s).factoryCalls = 1 ∧
      (get valid (some u) false s).leaked = [u]) ∧
    (∀ t tl, s.dropWhile (fun e => !valid e.1) = (t, none) :: tl →
      (get valid vcreate false s).result = .error .badWeak ∧
      (get valid vcreate false s).items_ = tl ∧
      (get valid vcreate false s).destroyed =
        (s.takeWhile (fun e => !valid e.1)).map Prod.fst ++ [t] ∧
      (get valid vcreate false s).factoryCalls = 0) := by
  refine ⟨rfl, rfl, fun hd => ?_, fun t tl hd => ?_⟩
  · have hg := get_exhausted valid (some u) false s hd
    exact ⟨by rw [hg]; rfl, by rw [hg], by rw [hg], by rw [hg]; rfl⟩
  · have hg := get_found_unowned valid vcreate s t tl hd
    exact ⟨by rw [hg], by rw [hg], by rw [hg], by rw [hg]⟩

/-- C10 amended-claim witness: unowned pool, one accepting entry — the
call throws `bad_weak_ptr` and the entry is gone from storage. -/
theorem C10_shared_ownership_required_witness :
    (get (fun _ : Nat => true) (some 7) false [(5, none)]).result =
        .error .badWeak ∧
    (get (fun _ : Nat => true) (some 7) false [(5, none)]).items_ = [] :=
  have h := (C10_shared_ownership_required (fun _ => true) (some 7)
      [(5, none)] 7).2.2.2 5 [] (by rfl)
  ⟨h.1, h.2.1⟩

/-- A release accounts for exactly one item: it ends up either in storage
or destroyed. -/
theorem deleterRun_len {T : Type} (valid : T → Bool) (alive : Bool)
    (assoc : Option Unit) (s : List (T × Option Unit)) (t : T) :
    (deleterRun valid alive assoc s t).1.length +
        (deleterRun valid alive assoc s t).2.1.length = s.length + 1 := by
  cases hl : lockOk assoc alive
  · simp [deleterRun_dead valid alive assoc s t hl]
  · cases hv : valid t <;>
      simp [deleterRun_live valid alive assoc s t hl, push, hv]

/-- A sweep conserves entries: kept plus deferred equals the storage. -/
theorem erase_invalid_len {T : Type} (valid : T → Bool)
    (s : List (T × Option Unit)) :
    (erase_invalid valid s).1.length + (erase_invalid valid s).2.length =
      s.length := by
  induction s with
  | nil => rfl
  | cons e rest ih =>
    cases hv : valid e.1 <;> simp [erase_invalid, hv] <;> omega

/-- A `get` on a shared-owned pool accounts for every entry: the returned
handle (if any) plus the remaining storage plus the destroyed items equal
the original storage plus a successful construction (if any). -/
theorem get_count {T : Type} (valid : T → Bool) (vcreate : Option T)
    (s : List (T × Option Unit)) :
    okCount (get valid vcreate true s).result +
        (get valid vcreate true s).items_.length +
        (get valid vcreate true s).destroyed.length =
      s.length +
        (if (get valid vcreate true s).factoryCalls = 1 ∧ vcreate.isSome
          then 1 else 0) := by
  cases hd : s.dropWhile (fun e => !valid e.1) with
  | nil =>
    have hg := get_exhausted valid vcreate true s hd
    rw [hg]
    cases vcreate with
    | none => simp [okCount, createOp]
    | some t => simp [okCount, createOp]; omega
  | cons e tl =>
    have hg := get_found valid vcreate s e tl hd
    have hlen := congrArg List.length
      (List.takeWhile_append_dropWhile (fun e => !valid e.1) s)
    rw [hd] at hlen
    simp only [List.length_append, List.length_cons] at hlen
    rw [hg]
    simp only [okCount, List.length_map]
    simp
    omega

/-- Each step of the operation semantics preserves the conservation
equation: handles out plus storage plus destroyed equals constructed. -/
theorem step_conserv (valid : Nat → Bool) (factory : Nat → Option Nat)
    (st : Sys) (op : Op)
    (h : st.checkedOut.length + st.items_.length + st.destroyedCount =
      st.constructed) :
    (step valid factory st op).checkedOut.length +
        (step valid factory st op).items_.length +
        (step valid factory st op).destroyedCount =
      (step valid factory st op).constructed := by
  cases op with
  | create =>
    cases hf : factory st.constructed <;> simp [step, createOp, hf] <;> omega
  | get =>
    have hc := get_count valid (factory st.constructed) st.items_
    simp only [step]
    cases hres : (get valid (factory st.constructed) true st.items_).result <;>
      rw [hres] at hc <;> simp only [okCount] at hc <;> simp [hres] <;> omega
  | release i =>
    simp only [step]
    cases hg : st.checkedOut[i]? with
    | none => simpa using h
    | some hdl =>
      have hlen : i < st.checkedOut.length := by
        by_contra hh
        rw [List.getElem?_eq_none (Nat.le_of_not_lt hh)] at hg
        exact absurd hg (by simp)
      have he : (st.checkedOut.eraseIdx i).length =
          st.checkedOut.length - 1 := List.length_eraseIdx_of_lt hlen
      have hd := deleterRun_len valid true hdl.del.join st.items_ hdl.item
      simp only [he]
      omega
  | erase =>
    have hd := erase_invalid_len valid st.items_
    simp only [step]
    omega

/-- An invariant that holds initially and is preserved by every step
holds after any run of operations. -/
theorem run_foldl_inv (valid : Nat → Bool) (factory : Nat → Option Nat)
    (P : Sys → Prop)
    (hstep : ∀ st op, P st → P (step valid factory st op)) :
    ∀ (ops : List Op) (st : Sys), P st →
      P (ops.foldl (step valid factory) st) := by
  intro ops
  induction ops with
  | nil => intro st h; exact h
  | cons op rest ih => intro st h; exact ih _ (hstep st op h)

/-- C8: conservation.  For every sequence of operations on one pool, at
every instant the number of checked-out handles plus the number of
entries in storage equals the number of items ever constructed by the
factory minus the number ever destroyed (stated over `Nat` as an exact
sum), and that quantity is never negative (destroyed never exceeds
constructed). -/
theorem C8_conservation (valid : Nat → Bool) (factory : Nat → Option Nat)
    (ops : List Op) :
    (run valid factory ops).checkedOut.length +
        (run valid factory ops).items_.length +
        (run valid factory ops).destroyedCount =
      (run valid factory ops).constructed ∧
    (run valid factory ops).destroyedCount ≤
      (run valid factory ops).constructed := by
  have hinv := run_foldl_inv valid factory
    (fun st => st.checkedOut.length + st.items_.length + st.destroyedCount =
      st.constructed)
    (fun st op hst => step_conserv valid factory st op hst) ops initSys rfl
  have hrun : run valid factory ops = ops.foldl (step valid factory) initSys :=
    rfl
  rw [hrun]
  exact ⟨hinv, by omega⟩

/-- Every entry of the storage `get` leaves behind was already in the
storage it started from. -/
theorem get_items_subset {T : Type} (valid : T → Bool) (vcreate : Option T)
    (s : List (T × Option Unit)) :
    ∀ e, e ∈ (get valid vcreate true s).items_ → e ∈ s := by
  intro e he
  cases hd : s.dropWhile (fun x => !valid x.1) with
  | nil =>
    rw [get_exhausted valid vcreate true s hd] at he
    simp at he
  | cons f tl =>
    rw [get_found valid vcreate s f tl hd] at he
    have hmem : e ∈ s.dropWhile (fun x => !valid x.1) := by
      rw [hd]; exact List.mem_cons_of_mem _ he
    exact (List.dropWhile_sublist _).subset hmem

/-- Every entry of the storage a release leaves behind was already there,
or is the released item rewrapped with an empty association. -/
theorem deleterRun_items {T : Type} (valid : T → Bool) (alive : Bool)
    (assoc : Option Unit) (s : List (T × Option Unit)) (t : T) :
    ∀ e ∈ (deleterRun valid alive assoc s t).1, e ∈ s ∨ e = (t, none) := by
  intro e he
  cases hl : lockOk assoc alive
  · rw [deleterRun_dead valid alive assoc s t hl] at he
    exact Or.inl he
  · rw [deleterRun_live valid alive assoc s t hl] at he
    cases hv : valid t <;> rw [push] at he <;> simp [hv] at he
    · exact Or.inl he
    · rcases he with he | he
      · exact Or.inr (by simp [he])
      · exact Or.inl he

/-- Each step of the operation semantics preserves the invariant that
every stored entry carries an empty association. -/
theorem step_clean (valid : Nat → Bool) (factory : Nat → Option Nat)
    (st : Sys) (op : Op)
    (h : ∀ e ∈ st.items_, e.2 = (none : Option Unit)) :
    ∀ e ∈ (step valid factory st op).items_,
      e.2 = (none : Option Unit) := by
  cases op with
  | create =>
    cases hf : factory st.constructed <;> simp only [step, createOp, hf] <;>
      exact h
  | get =>
    intro e he
    exact h e (get_items_subset valid (factory st.constructed) st.items_ e he)
  | release i =>
    simp only [step]
    cases hg : st.checkedOut[i]? with
    | none => exact h
    | some hdl =>
      intro e he
      rcases deleterRun_items valid true hdl.del.join st.items_ hdl.item e he
        with hm | hm
      · exact h e hm
      · rw [hm]
  | erase =>
    intro e he
    simp only [step] at he
    rw [erase_invalid_keep valid st.items_] at he
    exact h e (List.mem_filter.mp he).1

/-- C9: throughout any run, every entry held in storage carries an empty
(unbound) pool association — `push` rewraps the returned item with a
default-constructed `deleter()`, and the association is re-established
only when `get` serves the item; consequently the deleter of a stored
entry never re-pushes: whatever the pool's aliveness, releasing an
unassociated item destroys it directly (as happens when the pool's
destruction or a sweep drops the stored shared pointers). -/
theorem C9_stored_items_unbound (valid : Nat → Bool)
    (factory : Nat → Option Nat) (ops : List Op) :
    (∀ e ∈ (run valid factory ops).items_, e.2 = (none : Option Unit)) ∧
    (∀ (alive : Bool) (s : List (Nat × Option Unit)) (t : Nat),
      deleterRun valid alive none s t = (s, [t], false)) := by
  refine ⟨run_foldl_inv valid factory
      (fun st => ∀ e ∈ st.items_, e.2 = (none : Option Unit))
      (fun st op hst => step_clean valid factory st op hst) ops initSys
      (by intro e he; simp [initSys] at he), ?_⟩
  intro alive s t
  exact deleterRun_dead valid alive none s t (by simp [lockOk])

end tao
